import Mathlib

/-!
Verification of the integer-only light-field disparity pipeline.

This file gives a shallow embedding of the two integer pipeline variants
(the plain one and the bit-manipulation one) and proves properties of the
container codec, the biased Q12.12 fixed-point helpers, the low-pass
convolution, the EPI builder, the confidence estimator, the box sum and
the disparity fusion.

Bytes are modelled as lists of naturals (Python byte strings); every value
a Python byte string holds is below 256, appearing here as a hypothesis
where a proof needs it.  Python integers are Nat or Int; Python floor
division on Int is Euclidean division, which agrees with Python for the
positive divisors used throughout.
-/

set_option maxRecDepth 10000

namespace Thesis

/-- Fixed-point constants: 12 fractional bits, bias 2048 * 4096. -/
def Q_SCALE : Nat := 4096

def BIAS_INT : Nat := 8388608

def U24_MAX : Nat := 16777215

/-- Little-endian unsigned 24-bit read of three payload bytes. -/
def _u24_read (p : List Nat) (o : Nat) : Nat :=
  p.getD o 0 ||| (p.getD (o + 1) 0 <<< 8) ||| (p.getD (o + 2) 0 <<< 16)

/-- Little-endian unsigned 24-bit write: the three bytes the writer stores,
masked to 24 bits first.  The mask on a Python int is its value mod 2^24. -/
def _u24_chunk (v : Int) : List Nat :=
  let u := (v % 16777216).toNat
  [u &&& 255, (u >>> 8) &&& 255, (u >>> 16) &&& 255]

/-- Biased encode: stored = signed + 8388608, saturated to [0, 16777215]. -/
def _bias_from_q12_12 (q : Int) : Int :=
  let u := q + 8388608
  if u < 0 then 0 else if u > 16777215 then 16777215 else u

/-- Same clamp as _bias_from_q12_12; the disparity module repeats it under
the name _bias_q. -/
def _bias_q (q : Int) : Int :=
  let u := q + 8388608
  if u < 0 then 0 else if u > 16777215 then 16777215 else u

/-- Absolute value helper used by confidence and disparity. -/
def _abs_i32 (x : Int) : Int := if x < 0 then -x else x

/-- Division by 2 with round-to-nearest, ties away from zero; the shifts in
the source act on nonnegative operands, hence division here. -/
def _round_div2 (x : Int) : Int :=
  if 0 ≤ x then (x + 1) / 2 else -((-x + 1) / 2)

/-- Q12.12 multiply: full product, renormalized by a rounded shift of 12;
the shift acts on a nonnegative operand, hence division by 4096. -/
def _mul_q12 (a b : Int) : Int :=
  let prod := a * b
  if 0 ≤ prod then (prod + 2048) / 4096 else -((-prod + 2048) / 4096)

/-- Loop of _pow_q12_int: square-and-multiply, renormalizing through
_mul_q12 after every multiply.  The fuel only bounds the iteration count;
the exponent at least halves each pass, so fuel equal to the starting
exponent always reaches the exit condition. -/
def _pow_loop_fuel : Nat → Int → Int → Nat → Int
  | 0, result, _, _ => result
  | fuel + 1, result, b, e =>
    if e = 0 then result
    else
      _pow_loop_fuel fuel (if e % 2 = 1 then _mul_q12 result b else result)
        (if e / 2 ≠ 0 then _mul_q12 b b else b) (e / 2)

def _pow_loop (result b : Int) (e : Nat) : Int :=
  _pow_loop_fuel e result b e

/-- Integer-exponent power in Q12.12; exponents at most 0 give one (4096). -/
def _pow_q12_int (base : Int) (exp : Int) : Int :=
  if exp ≤ 0 then 4096
  else if exp = 1 then base
  else _pow_loop 4096 base exp.toNat

/-- Clamp into [lo, hi]. -/
def _clamp_q12 (x lo hi : Int) : Int :=
  if x < lo then lo else if x > hi then hi else x

namespace NoLib

/-- ASCII bytes of the IMGB magic. -/
def magic : List Nat := [73, 77, 71, 66]

/-- Little-endian u32 read of four buffer bytes (int.from_bytes of a
4-byte slice; a short slice reads as the bytes present, matching getD 0). -/
def _u32_le (b : List Nat) (off : Nat) : Nat :=
  b.getD off 0 + 256 * b.getD (off + 1) 0 + 65536 * b.getD (off + 2) 0 +
    16777216 * b.getD (off + 3) 0

/-- Bytes per sample for each encoding; unsupported codes raise. -/
def _bytes_per_sample (dtype_code : Nat) : Except String Nat :=
  if dtype_code = 1 then Except.ok 1
  else if dtype_code = 2 then Except.ok 2
  else if dtype_code = 3 then Except.ok 4
  else if dtype_code = 4 then Except.ok 3
  else Except.error "Unsupported dtype_code"

/-- Container parse of the No_Libraries variant: checks the length, the
magic and the payload size before returning the parsed tuple. -/
def imgb_parse (buf : List Nat) : Except String (Nat × Nat × Nat × Nat × List Nat) :=
  if buf.length < 16 then Except.error "IMGB buffer too small"
  else if buf.take 4 ≠ magic then Except.error "Bad IMGB magic"
  else
    let W := _u32_le buf 4
    let H := _u32_le buf 8
    let C := buf.getD 12 0
    let dtype_code := buf.getD 13 0
    let payload := buf.drop 16
    Except.bind (_bytes_per_sample dtype_code) (fun bps =>
      if payload.length ≠ W * H * C * bps then Except.error "IMGB payload size mismatch"
      else Except.ok (W, H, C, dtype_code, payload))

/-- Little-endian 4-byte encoding of a u32 (int.to_bytes raises on
overflow). -/
def u32_to_bytes_le (n : Nat) : Except String (List Nat) :=
  if 4294967296 ≤ n then Except.error "OverflowError"
  else Except.ok [n % 256, n / 256 % 256, n / 65536 % 256, n / 16777216 % 256]

/-- Container make of the No_Libraries variant: checks the payload size,
then emits the 16-byte header followed by the payload. -/
def imgb_make (W H C dtype_code : Nat) (payload : List Nat) : Except String (List Nat) :=
  Except.bind (_bytes_per_sample dtype_code) (fun bps =>
    if payload.length ≠ W * H * C * bps then Except.error "Payload size mismatch"
    else
      Except.bind (u32_to_bytes_le W) (fun wb =>
        Except.bind (u32_to_bytes_le H) (fun hb =>
          Except.ok (magic ++ wb ++ hb ++ [C &&& 255, dtype_code &&& 255, 0, 0] ++ payload))))

end NoLib

namespace BitM

/-- Container parse of the Bit_Manipulation variant: no magic check and no
payload-size check; reading header bytes of a too-short buffer raises. -/
def imgb_parse (buf : List Nat) : Except String (Nat × Nat × Nat × Nat × List Nat) :=
  if buf.length < 14 then Except.error "IndexError"
  else Except.ok (NoLib._u32_le buf 4, NoLib._u32_le buf 8, buf.getD 12 0,
    buf.getD 13 0, buf.drop 16)

/-- Container make of the Bit_Manipulation variant: no checks at all; its
callers pass widths and heights far below 2^32 so to_bytes cannot raise. -/
def imgb_make (W H C dtype_code : Nat) (payload : List Nat) : List Nat :=
  NoLib.magic ++ [W % 256, W / 256 % 256, W / 65536 % 256, W / 16777216 % 256] ++
    [H % 256, H / 256 % 256, H / 65536 % 256, H / 16777216 % 256] ++
    [C &&& 255, dtype_code &&& 255, 0, 0] ++ payload

end BitM

/-- One reflection step of _reflect_index: negate when below zero,
otherwise fold back below the upper bound. -/
def reflect_step (n : Nat) (i : Int) : Int :=
  if i < 0 then -i else (2 * (n : Int) - 2) - i

/-- Fuel-indexed unfolding of the while loop of _reflect_index; the fuel
only bounds the iteration count, the loop exits when the index is in
range. -/
def reflect_go (n : Nat) : Nat → Int → Int
  | 0, i => i
  | fuel + 1, i =>
    if i < 0 ∨ (n : Int) ≤ i then reflect_go n fuel (reflect_step n i) else i

/-- Reflection indexing with fuel that section lemmas show suffices for
every bound of at least 2. -/
def _reflect_index (i : Int) (n : Nat) : Int :=
  reflect_go n (2 * i.natAbs + 2) i

/-- Tap list of a square kernel: angular offset, spatial offset, weight. -/
def make_taps (K : List (List Nat)) : List (Int × Int × Nat) :=
  let k := K.length
  let p := k / 2
  (List.range k).flatMap (fun (dy : Nat) =>
    (List.range k).map (fun (dx : Nat) =>
      ((dy : Int) - (p : Int), (dx : Int) - (p : Int), (K.getD dy []).getD dx 0)))

namespace NoLib

/-- Integer-weight kernels of the No_Libraries low-pass stage with their
normalization sums. -/
def _KERNELS : List (List (List Nat) × Nat) :=
  [([[1, 2, 1], [2, 4, 2], [1, 2, 1]], 16),
   ([[1, 2, 2, 2, 1], [2, 4, 4, 4, 2], [2, 4, 4, 4, 2], [2, 4, 4, 4, 2], [1, 2, 2, 2, 1]], 64),
   ([[1, 1, 2, 2, 2, 1, 1], [1, 2, 4, 4, 4, 2, 1], [2, 4, 4, 4, 4, 4, 2],
     [2, 4, 4, 4, 4, 4, 2], [2, 4, 4, 4, 4, 4, 2], [1, 2, 4, 4, 4, 2, 1],
     [1, 1, 2, 2, 2, 1, 1]], 128)]

/-- Weighted sum over the kernel taps for one pixel and channel, sampling
with reflection indexing. -/
def conv_acc (raw : List Nat) (W H : Nat) (K : List (List Nat)) (y x c : Nat) : Nat :=
  ((make_taps K).map (fun t =>
    let yy := (_reflect_index ((y : Int) + t.1) H).toNat
    let xx := (_reflect_index ((x : Int) + t.2.1) W).toNat
    raw.getD ((yy * W + xx) * 3 + c) 0 * t.2.2)).sum

/-- Blurred pixel of the No_Libraries variant: rounded division by the
kernel sum, then the clamp.  The source also clamps below 0, which never
fires since bytes and weights are nonnegative. -/
def conv_pixel (raw : List Nat) (W H : Nat) (K : List (List Nat)) (kernel_sum : Nat)
    (y x c : Nat) : Nat :=
  min ((conv_acc raw W H K y x c + kernel_sum / 2) / kernel_sum) 255

/-- Full convolution of the No_Libraries variant: three output bytes per
pixel, rows in order. -/
def _convolve_u8_rgb (raw : List Nat) (W H : Nat) (K : List (List Nat))
    (kernel_sum : Nat) : List Nat :=
  (List.range H).flatMap (fun y => (List.range W).flatMap (fun x =>
    [conv_pixel raw W H K kernel_sum y x 0,
     conv_pixel raw W H K kernel_sum y x 1,
     conv_pixel raw W H K kernel_sum y x 2]))

end NoLib

namespace BitM

/-- Exponent kernels of the Bit_Manipulation low-pass stage with their
normalization shifts: weights are 1 shifted by the entry. -/
def _KERNELS : List (List (List Nat) × Nat) :=
  [([[0, 1, 0], [1, 2, 1], [0, 1, 0]], 4),
   ([[0, 1, 1, 1, 0], [1, 2, 2, 2, 1], [1, 2, 2, 2, 1], [1, 2, 2, 2, 1], [0, 1, 1, 1, 0]], 6),
   ([[0, 0, 1, 1, 1, 0, 0], [0, 1, 2, 2, 2, 1, 0], [1, 2, 2, 2, 2, 2, 1],
     [1, 2, 2, 2, 2, 2, 1], [1, 2, 2, 2, 2, 2, 1], [0, 1, 2, 2, 2, 1, 0],
     [0, 0, 1, 1, 1, 0, 0]], 7)]

/-- Weighted sum over the kernel taps for one pixel and channel in the
Bit_Manipulation variant; byte indexing hardcodes the 512-pixel row pitch. -/
def conv_acc (raw : List Nat) (W H : Nat) (E : List (List Nat)) (y x c : Nat) : Nat :=
  ((make_taps E).map (fun t =>
    let yy := (_reflect_index ((y : Int) + t.1) H).toNat
    let xx := (_reflect_index ((x : Int) + t.2.1) W).toNat
    let idx := (yy <<< 9) + xx
    let base := (idx <<< 1) + idx
    raw.getD (base + c) 0 <<< t.2.2)).sum

/-- Blurred pixel of the Bit_Manipulation variant: plain right shift by the
normalization shift (truncation), then the upper clamp. -/
def conv_pixel (raw : List Nat) (W H : Nat) (E : List (List Nat)) (norm_shift : Nat)
    (y x c : Nat) : Nat :=
  min (conv_acc raw W H E y x c >>> norm_shift) 255

end BitM

namespace NoLib

/-- Horizontal EPI payload for image row y: row y of every stack frame in
order, 9 bytes per pixel. -/
def build_epi_h_row (h_stack : List (List Nat)) (W U y : Nat) : List Nat :=
  (List.range U).flatMap (fun u => ((h_stack.getD u []).drop (y * (W * 9))).take (W * 9))

end NoLib

namespace BitM

/-- Horizontal EPI payload for image row y in the Bit_Manipulation variant:
constants fix the row pitch at 4608 bytes (512 pixels) and the angular
count at 9. -/
def build_epi_h_row (h_stack : List (List Nat)) (y : Nat) : List Nat :=
  (List.range 9).flatMap (fun u => ((h_stack.getD u []).drop (y * 4608)).take 4608)

end BitM

namespace NoLib

/-- Channel sample of an RGB u24 EPI payload, decoded to signed Q12.12. -/
def epi_sample (pay : List Nat) (idx ch : Nat) : Int :=
  (_u24_read pay (idx * 9 + ch * 3) : Int) - 8388608

/-- Angular central difference at interior angular index a and column x. -/
def conf_diff (pay : List Nat) (W ch a x : Nat) : Int :=
  _round_div2 (epi_sample pay ((a + 1) * W + x) ch - epi_sample pay ((a - 1) * W + x) ch)

/-- Angular-difference payload of one EPI: borders hold the bias (zero),
interior rows hold the biased central differences. -/
def conf_diff_row (pay : List Nat) (A W ch : Nat) : List Nat :=
  (List.range A).flatMap (fun a =>
    if a = 0 ∨ a = A - 1 then (List.range W).flatMap (fun _ => _u24_chunk 8388608)
    else (List.range W).flatMap (fun x =>
      _u24_chunk (_bias_from_q12_12 (conf_diff pay W ch a x))))

/-- Sum of absolute interior angular differences at one column. -/
def conf_sum_abs (pay : List Nat) (A W ch x : Nat) : Int :=
  ((List.range A).map (fun a =>
    if a = 0 ∨ a = A - 1 then 0 else _abs_i32 (conf_diff pay W ch a x))).sum

/-- Confidence value at one column: rounded mean of the absolute interior
differences over A - 2 samples (used only when A is at least 3). -/
def conf_c_q (pay : List Nat) (A W ch x : Nat) : Int :=
  (conf_sum_abs pay A W ch x + ((A : Int) - 2) / 2) / ((A : Int) - 2)

/-- All-bias payload used in the degenerate branch for angular counts
below 3. -/
def zero_diff_payload (A W : Nat) : List Nat :=
  (List.range (A * W)).flatMap (fun _ => _u24_chunk 8388608)

/-- Confidence estimator of the No_Libraries variant.  The vertical halves
reuse the horizontal helpers with the width argument set to the height,
exactly as the source duplicates the loop with renamed variables. -/
def compute_from_epis_with_diffs (epi_h_imgb epi_v_imgb : List (List Nat))
    (channel : Option Nat) :
    Except String (List Nat × List Nat × List (List Nat) × List (List Nat)) :=
  let ch := channel.getD 0
  let H_img := epi_h_imgb.length
  let W_img := epi_v_imgb.length
  if H_img = 0 ∨ W_img = 0 then Except.error "Empty epi lists"
  else
    Except.bind (imgb_parse (epi_h_imgb.getD 0 [])) (fun ph =>
    Except.bind (imgb_parse (epi_v_imgb.getD 0 [])) (fun pv =>
    if ph.2.2.2.1 ≠ 4 ∨ pv.2.2.2.1 ≠ 4 then
      Except.error "EPIs must be dtype_code 4 (u24 Q12.12 biased)"
    else if ph.2.2.1 ≠ 3 ∨ pv.2.2.1 ≠ 3 then Except.error "EPIs must be RGB (C=3)"
    else
      let W := ph.1
      let A := ph.2.1
      let H := H_img
      if W_img ≠ W then Except.error "epi_v_imgb length must equal image width W"
      else if pv.1 ≠ H then Except.error "vertical EPI width must equal image height H"
      else if pv.2.1 ≠ A then Except.error "horizontal and vertical angular counts must match"
      else
        let diff_h_pays :=
          if A < 3 then (List.range H).map (fun _ => zero_diff_payload A W)
          else (List.range H).map (fun y => conf_diff_row ((epi_h_imgb.getD y []).drop 16) A W ch)
        let C_h_q : Nat → Int :=
          if A < 3 then (fun _ => 0)
          else (fun i => conf_c_q ((epi_h_imgb.getD (i / W) []).drop 16) A W ch (i % W))
        let diff_v_pays :=
          if A < 3 then (List.range W).map (fun _ => zero_diff_payload A H)
          else (List.range W).map (fun x => conf_diff_row ((epi_v_imgb.getD x []).drop 16) A H ch)
        let C_v_q : Nat → Int :=
          if A < 3 then (fun _ => 0)
          else (fun i => conf_c_q ((epi_v_imgb.getD (i % W) []).drop 16) A H ch (i / W))
        Except.bind (diff_h_pays.mapM (fun p => imgb_make W A 1 4 p)) (fun dL_du_h =>
        Except.bind (imgb_make W H 1 4 ((List.range (H * W)).flatMap (fun i =>
            _u24_chunk (_bias_from_q12_12 (C_h_q i))))) (fun C_h_imgb =>
        Except.bind (diff_v_pays.mapM (fun p => imgb_make H A 1 4 p)) (fun dL_dv_v =>
        Except.bind (imgb_make W H 1 4 ((List.range (H * W)).flatMap (fun i =>
            _u24_chunk (_bias_from_q12_12 (C_v_q i))))) (fun C_v_imgb =>
        Except.ok (C_h_imgb, C_v_imgb, dL_du_h, dL_dv_v)))))))

end NoLib

namespace BitM

/-- Angular-difference payload of one EPI in the Bit_Manipulation variant:
angular count 9 and width 512 are hardcoded; border rows hold the bias. -/
def conf_diff_row (pay : List Nat) (ch : Nat) : List Nat :=
  (List.range 9).flatMap (fun a =>
    if a = 0 ∨ a = 8 then (List.range 512).flatMap (fun _ => _u24_chunk 8388608)
    else (List.range 512).flatMap (fun x =>
      _u24_chunk (_bias_from_q12_12 (NoLib.conf_diff pay 512 ch a x))))

end BitM

/-- Prefix sums of the integral image: integ a x sums the first x entries
of each of the first a plane rows, exactly the value the imperative
integral-image loop stores at position (a, x). -/
def integ (plane : List (List Int)) (a x : Nat) : Int :=
  ((plane.take a).map (fun row => (row.take x).sum)).sum

/-- Box sum over a 2D plane via the integral image, window edges clamped
to the valid index range; both pipeline variants implement this
identically. -/
def _box_sum_2d_int (plane : List (List Int)) (win : Nat) : List (List Int) :=
  if win ≤ 1 then plane
  else
    let r := win / 2
    let A := plane.length
    let W := (plane.headD []).length
    (List.range A).map (fun a =>
      let a0 := a - r
      let a1 := min (a + r) (A - 1)
      (List.range W).map (fun x =>
        let x0 := x - r
        let x1 := min (x + r) (W - 1)
        integ plane (a1 + 1) (x1 + 1) - integ plane a0 (x1 + 1) -
          integ plane (a1 + 1) x0 + integ plane a0 x0))

namespace BitM

/-- Fused disparity at one pixel of the Bit_Manipulation variant, from the
stored u24 samples of the four input maps and the fusion parameters. -/
def fuse_pixel (zh_s zv_s ch_s cv_s : Nat) (temperature floor cap eps : Int) : Int :=
  let zh := (zh_s : Int) - 8388608
  let zv := (zv_s : Int) - 8388608
  let ch0 := (ch_s : Int) - 8388608
  let cv0 := (cv_s : Int) - 8388608
  let ch1 := if ch0 < 0 then 0 else ch0
  let cv1 := if cv0 < 0 then 0 else cv0
  let ch2 := _clamp_q12 ch1 floor cap
  let cv2 := _clamp_q12 cv1 floor cap
  let p_h := _pow_q12_int ch2 temperature
  let p_v := _pow_q12_int cv2 temperature
  let num := p_h * zh + p_v * zv
  let den := p_h + p_v + eps
  if den ≤ 0 then 0
  else if 0 ≤ num then (num + den * 2048) / den
  else -((-num + den * 2048) / den)

/-- Full fusion of the Bit_Manipulation variant: 512 x 512 pixels, inputs
read at stride 3 from the blob payloads, output re-biased into a new
blob.  The rounding term den * 2048 is den shifted left by 11 as in
the source; den is positive on that branch. -/
def fuse_disparity_precision (Z_h Z_v C_h C_v : List Nat)
    (temperature floor cap eps : Int) : List Nat :=
  let pZh := Z_h.drop 16
  let pZv := Z_v.drop 16
  let pCh := C_h.drop 16
  let pCv := C_v.drop 16
  imgb_make 512 512 1 4 ((List.range 262144).flatMap (fun k =>
    _u24_chunk (_bias_q (fuse_pixel (_u24_read pZh (3 * k)) (_u24_read pZv (3 * k))
      (_u24_read pCh (3 * k)) (_u24_read pCv (3 * k)) temperature floor cap eps))))

end BitM

/-- Indexing a concatenation of equal-length blocks picks position j of
block i. -/
theorem flatMap_getD {α β : Type} (g : β → List α) (L : Nat) (d : α) :
    ∀ (l : List β) (i : Nat) (hi : i < l.length) (j : Nat),
      (∀ b ∈ l, (g b).length = L) → j < L →
      (l.flatMap g).getD (i * L + j) d = (g l[i]).getD j d := by
  intro l
  induction l with
  | nil => intro i hi; simp at hi
  | cons hd tl ih =>
    intro i hi j hall hj
    have hlen : (g hd).length = L := hall hd (by simp)
    cases i with
    | zero =>
      rw [List.flatMap_cons]
      simpa using List.getD_append (g hd) (tl.flatMap g) d j (by omega)
    | succ i =>
      rw [List.flatMap_cons]
      have harith : (i + 1) * L + j = (g hd).length + (i * L + j) := by
        rw [hlen]; ring
      rw [harith, List.getD_append_right _ _ _ _ (by omega)]
      have : (g hd).length + (i * L + j) - (g hd).length = i * L + j := by omega
      rw [this]
      exact ih i (by simpa using hi) j (fun b hb => hall b (by simp [hb])) hj

/-- Length of a concatenation of equal-length blocks. -/
theorem flatMap_length_const {α β : Type} (g : β → List α) (L : Nat) :
    ∀ (l : List β), (∀ b ∈ l, (g b).length = L) →
      (l.flatMap g).length = l.length * L := by
  intro l
  induction l with
  | nil => simp
  | cons hd tl ih =>
    intro hall
    rw [List.flatMap_cons, List.length_append, hall hd (by simp),
      ih (fun b hb => hall b (by simp [hb]))]
    simp [Nat.succ_mul]
    omega

/-- Indexing a concatenation of equal-length blocks over an index range. -/
theorem range_flatMap_getD {α : Type} (g : Nat → List α) (L n : Nat) (d : α)
    (i j : Nat) (hi : i < n) (hj : j < L) (hg : ∀ m, m < n → (g m).length = L) :
    ((List.range n).flatMap g).getD (i * L + j) d = (g i).getD j d := by
  have h := flatMap_getD g L d (List.range n) i (by simpa using hi) j
    (fun b hb => hg b (List.mem_range.mp hb)) hj
  rwa [List.getElem_range] at h

/-- Mapping over a range and indexing picks the function value. -/
theorem range_map_getD {α : Type} (f : Nat → α) (n : Nat) (d : α) (i : Nat)
    (hi : i < n) : ((List.range n).map f).getD i d = f i := by
  rw [List.getD_eq_getElem?_getD, List.getElem?_map, List.getElem?_range hi]
  rfl

/-- Gathering a monadic map whose steps all succeed. -/
theorem mapM_ok {α β : Type} {f : α → Except String β} {g : α → β} :
    ∀ (l : List α), (∀ a ∈ l, f a = Except.ok (g a)) →
      l.mapM f = Except.ok (l.map g) := by
  intro l
  induction l with
  | nil => intro _; rfl
  | cons hd tl ih =>
    intro hall
    rw [List.mapM_cons, hall hd (by simp), ih (fun a ha => hall a (by simp [ha]))]
    rfl

/-- Claim C5: the biased encode (stored = signed + 8388608, clamped to the
u24 range) yields 0 below -8388608, yields 16777215 above 8388607, adds
the bias exactly in range, and never wraps (the result is always inside
[0, 16777215]); the disparity module clamp _bias_q is the same function. -/
theorem C5_bias_saturation (q : Int) :
    _bias_q q = _bias_from_q12_12 q ∧
    (q < -8388608 → _bias_from_q12_12 q = 0) ∧
    (16777215 - 8388608 < q → _bias_from_q12_12 q = 16777215) ∧
    (-8388608 ≤ q → q ≤ 16777215 - 8388608 → _bias_from_q12_12 q = q + 8388608) ∧
    0 ≤ _bias_from_q12_12 q ∧ _bias_from_q12_12 q ≤ 16777215 := by
  unfold _bias_q _bias_from_q12_12
  dsimp only
  split_ifs <;> omega

theorem C5_bias_saturation_witness :
    _bias_from_q12_12 (-9000000) = 0 ∧
    _bias_from_q12_12 9000000 = 16777215 ∧
    _bias_from_q12_12 5 = 5 + 8388608 :=
  ⟨(C5_bias_saturation (-9000000)).2.1 (by decide),
   (C5_bias_saturation 9000000).2.2.1 (by decide),
   (C5_bias_saturation 5).2.2.2.1 (by decide) (by decide)⟩

/-- Once the index is inside [0, n) the reflect loop leaves it unchanged,
for any remaining fuel. -/
theorem reflect_go_fix (n : Nat) :
    ∀ (f : Nat) (i : Int), 0 ≤ i → i < n → reflect_go n f i = i := by
  intro f
  induction f with
  | zero => intro i _ _; rfl
  | succ f ih =>
    intro i h0 h1
    have hcond : ¬ (i < 0 ∨ (n : Int) ≤ i) := by omega
    simp [reflect_go, hcond]

/-- With bound at least 2, fuel dominating the loop measure brings the
reflect loop to a stable value inside [0, n). -/
theorem reflect_go_spec (n : Nat) (hn : 2 ≤ n) :
    ∀ (k : Nat) (i : Int), 2 * i.natAbs + (if i < 0 then 1 else 0) ≤ k →
      0 ≤ reflect_go n k i ∧ reflect_go n k i < n ∧
        ∀ f, k ≤ f → reflect_go n f i = reflect_go n k i := by
  intro k
  induction k with
  | zero =>
    intro i h
    have hz : i = 0 := by split at h <;> omega
    subst hz
    have hb : (0 : Int) < (n : Int) := by omega
    refine ⟨le_refl 0, hb, ?_⟩
    intro f _
    exact reflect_go_fix n f 0 (le_refl 0) hb
  | succ k ih =>
    intro i h
    by_cases hin : 0 ≤ i ∧ i < (n : Int)
    · refine ⟨?_, ?_, ?_⟩
      · rw [reflect_go_fix n (k + 1) i hin.1 hin.2]; exact hin.1
      · rw [reflect_go_fix n (k + 1) i hin.1 hin.2]; exact hin.2
      · intro f _
        rw [reflect_go_fix n f i hin.1 hin.2, reflect_go_fix n (k + 1) i hin.1 hin.2]
    · have hcond : i < 0 ∨ (n : Int) ≤ i := by omega
      have hstep : 2 * (reflect_step n i).natAbs +
          (if reflect_step n i < 0 then 1 else 0) ≤ k := by
        simp only [reflect_step]
        split_ifs at h ⊢ <;> omega
      have hgo : reflect_go n (k + 1) i = reflect_go n k (reflect_step n i) := by
        simp [reflect_go, hcond]
      obtain ⟨h1, h2, h3⟩ := ih (reflect_step n i) hstep
      refine ⟨hgo ▸ h1, hgo ▸ h2, ?_⟩
      intro f hf
      obtain ⟨g, rfl⟩ : ∃ g, f = g + 1 := ⟨f - 1, by omega⟩
      have hg : reflect_go n (g + 1) i = reflect_go n g (reflect_step n i) := by
        simp [reflect_go, hcond]
      rw [hg, h3 g (by omega), hgo]

/-- Claim C10: for every bound n of at least 2 and every integer index,
the reflection-indexing loop terminates (its fuel unfolding stabilizes)
at a value inside [0, n); the bound 2 is necessary: with n = 1 and index
1 the loop alternates forever and no amount of fuel reaches [0, 1). -/
theorem C10_reflect_index_terminates :
    (∀ (n : Nat) (i : Int), 2 ≤ n →
      0 ≤ _reflect_index i n ∧ _reflect_index i n < n ∧
        ∀ f, 2 * i.natAbs + 2 ≤ f → reflect_go n f i = _reflect_index i n) ∧
    (∀ f : Nat, ¬ (0 ≤ reflect_go 1 f 1 ∧ reflect_go 1 f 1 < 1)) := by
  constructor
  · intro n i hn
    have h := reflect_go_spec n hn (2 * i.natAbs + 2) i (by split_ifs <;> omega)
    exact ⟨h.1, h.2.1, fun f hf => h.2.2 f hf⟩
  · have key : ∀ f : Nat,
        (reflect_go 1 f 1 = 1 ∨ reflect_go 1 f 1 = -1) ∧
        (reflect_go 1 f (-1) = 1 ∨ reflect_go 1 f (-1) = -1) := by
      intro f
      induction f with
      | zero => simp [reflect_go]
      | succ f ihf =>
        constructor
        · have h1 : reflect_go 1 (f + 1) 1 = reflect_go 1 f (-1) := by
            norm_num [reflect_go, reflect_step]
          rw [h1]; exact ihf.2
        · have h2 : reflect_go 1 (f + 1) (-1) = reflect_go 1 f 1 := by
            norm_num [reflect_go, reflect_step]
          rw [h2]; exact ihf.1
    intro f hc
    rcases (key f).1 with h | h <;> rw [h] at hc <;> omega

theorem C10_reflect_index_witness :
    0 ≤ _reflect_index (-7) 5 ∧ _reflect_index (-7) 5 < 5 :=
  ⟨(C10_reflect_index_terminates.1 5 (-7) (by decide)).1,
   (C10_reflect_index_terminates.1 5 (-7) (by decide)).2.1⟩

/-- Prefix sums over the whole plane give the total sum. -/
theorem integ_full (plane : List (List Int)) (W : Nat)
    (hrow : ∀ row ∈ plane, row.length = W) :
    integ plane plane.length W = (plane.map List.sum).sum := by
  unfold integ
  rw [List.take_length]
  congr 1
  apply List.map_congr_left
  intro row hr
  rw [List.take_of_length_le (by rw [hrow row hr])]

/-- Prefix sums over zero rows vanish. -/
theorem integ_zero_rows (plane : List (List Int)) (x : Nat) :
    integ plane 0 x = 0 := by
  simp [integ]

/-- Prefix sums over zero columns vanish. -/
theorem integ_zero_cols (plane : List (List Int)) (a : Nat) :
    integ plane a 0 = 0 := by
  simp [integ]

/-- Claim C9: with window size 1 the box sum returns the plane unchanged;
with an odd window whose clamped half-width covers the whole plane from
every position, every box-sum entry equals the sum of all plane entries. -/
theorem C9_box_sum_spec :
    (∀ plane : List (List Int), _box_sum_2d_int plane 1 = plane) ∧
    (∀ (plane : List (List Int)) (win W a x : Nat),
      win % 2 = 1 → plane.length - 1 ≤ win / 2 → W - 1 ≤ win / 2 →
      (∀ row ∈ plane, row.length = W) → a < plane.length → x < W →
      ((_box_sum_2d_int plane win).getD a []).getD x 0 = (plane.map List.sum).sum) := by
  constructor
  · intro plane; rfl
  · intro plane win W a x hodd hA hW hrow ha hx
    by_cases hwin : win ≤ 1
    · have hw1 : win = 1 := by omega
      subst hw1
      have hA1 : plane.length = 1 := by omega
      have hW1 : W = 1 := by omega
      obtain ⟨row, hrow_eq⟩ := List.length_eq_one.mp hA1
      subst hrow_eq
      have : row.length = 1 := by rw [hrow row (by simp)]; omega
      obtain ⟨v, hv⟩ := List.length_eq_one.mp this
      subst hv
      have ha0 : a = 0 := by simpa using ha
      have hx0 : x = 0 := by omega
      subst ha0; subst hx0
      simp [_box_sum_2d_int]
    · have hwin2 : ¬ win ≤ 1 := hwin
      have hA1 : 1 ≤ plane.length := by omega
      have hW1 : 1 ≤ W := by omega
      have hhead : (plane.headD []).length = W := by
        cases plane with
        | nil => simp at ha
        | cons r t => exact hrow r (by simp)
      rw [_box_sum_2d_int]
      rw [if_neg hwin2]
      simp only [hhead]
      rw [range_map_getD _ _ _ a ha, range_map_getD _ _ _ x hx]
      have ha0 : a - win / 2 = 0 := by omega
      have ha1 : min (a + win / 2) (plane.length - 1) = plane.length - 1 := by
        have : plane.length - 1 ≤ a + win / 2 := by omega
        omega
      have hx0 : x - win / 2 = 0 := by omega
      have hx1 : min (x + win / 2) (W - 1) = W - 1 := by
        have : W - 1 ≤ x + win / 2 := by omega
        omega
      rw [ha0, ha1, hx0, hx1]
      have hAfull : plane.length - 1 + 1 = plane.length := by omega
      have hWfull : W - 1 + 1 = W := by omega
      rw [hAfull, hWfull, integ_full plane W hrow, integ_zero_rows, integ_zero_cols,
        integ_zero_rows]
      ring

/-- Byte-mask fact: masking with 255 is reduction mod 256. -/
theorem and_255_eq_mod (x : Nat) : x &&& 255 = x % 256 := by
  have h := Nat.and_pow_two_sub_one_eq_mod x 8
  norm_num at h
  exact h

/-- Successful make: with a supported encoding, a matching payload length
and in-range geometry, imgb_make emits header plus payload. -/
theorem imgb_make_eq (w h c e : Nat) (payload : List Nat) (bps : Nat)
    (hbps : NoLib._bytes_per_sample e = Except.ok bps)
    (hlen : payload.length = w * h * c * bps)
    (hw : w < 4294967296) (hh : h < 4294967296) :
    NoLib.imgb_make w h c e payload = Except.ok
      (NoLib.magic ++ [w % 256, w / 256 % 256, w / 65536 % 256, w / 16777216 % 256] ++
        [h % 256, h / 256 % 256, h / 65536 % 256, h / 16777216 % 256] ++
        [c &&& 255, e &&& 255, 0, 0] ++ payload) := by
  unfold NoLib.imgb_make NoLib.u32_to_bytes_le
  rw [hbps]
  show (if payload.length ≠ w * h * c * bps then _ else _) = _
  rw [if_neg (by omega), if_neg (by omega : ¬ 4294967296 ≤ w),
    if_neg (by omega : ¬ 4294967296 ≤ h)]
  rfl

/-- Successful parse of a well-formed header-plus-payload buffer. -/
theorem imgb_parse_header (w h c e : Nat) (payload : List Nat) (bps : Nat)
    (hbps : NoLib._bytes_per_sample e = Except.ok bps)
    (hlen : payload.length = w * h * c * bps)
    (hw : w < 4294967296) (hh : h < 4294967296) (hc : c ≤ 255) (he : e ≤ 255) :
    NoLib.imgb_parse
      (NoLib.magic ++ [w % 256, w / 256 % 256, w / 65536 % 256, w / 16777216 % 256] ++
        [h % 256, h / 256 % 256, h / 65536 % 256, h / 16777216 % 256] ++
        [c &&& 255, e &&& 255, 0, 0] ++ payload) = Except.ok (w, h, c, e, payload) := by
  have hcm : c &&& 255 = c := by rw [and_255_eq_mod]; omega
  have hem : e &&& 255 = e := by rw [and_255_eq_mod]; omega
  have hwu : w % 256 + 256 * (w / 256 % 256) + 65536 * (w / 65536 % 256) +
      16777216 * (w / 16777216 % 256) = w := by omega
  have hhu : h % 256 + 256 * (h / 256 % 256) + 65536 * (h / 65536 % 256) +
      16777216 * (h / 16777216 % 256) = h := by omega
  unfold NoLib.imgb_parse NoLib._u32_le NoLib.magic
  simp only [List.cons_append, List.nil_append, List.getD_cons_succ, List.getD_cons_zero,
    List.length_cons, List.length_append, List.take_succ_cons, List.take_zero,
    List.drop_succ_cons, List.drop_zero, hcm, hem, hwu, hhu]
  rw [if_neg (by omega), if_neg (by simp [NoLib.magic]), hbps]
  show (if payload.length ≠ w * h * c * bps then _ else _) = _
  rw [if_neg (by omega)]

/-- Claim C1 counterexample: the Bit_Manipulation parse returns a parsed
tuple on a 16-byte all-zero buffer whose magic does not match, so the
claim that every bad buffer fails is false for it. -/
theorem C1_parse_counterexample :
    BitM.imgb_parse (List.replicate 16 0) = Except.ok (0, 0, 0, 0, []) ∧
    (List.replicate 16 0).take 4 ≠ NoLib.magic :=
  ⟨rfl, by decide⟩

/-- Claim C1 (amended): the No_Libraries parse never returns a result on a
buffer with bad magic or mismatched payload length, since any parsed
result implies the magic matched and the payload length equals the
geometry/encoding-derived size; the Bit_Manipulation parse performs no
validation and returns the raw header fields of any buffer of at least
14 bytes. -/
theorem C1_parse_validation :
    (∀ (buf : List Nat) (w h c e : Nat) (pay : List Nat),
      NoLib.imgb_parse buf = Except.ok (w, h, c, e, pay) →
      buf.take 4 = NoLib.magic ∧ pay = buf.drop 16 ∧
      ∃ bps, NoLib._bytes_per_sample e = Except.ok bps ∧ pay.length = w * h * c * bps) ∧
    (∀ buf : List Nat, 13 < buf.length →
      BitM.imgb_parse buf = Except.ok (NoLib._u32_le buf 4, NoLib._u32_le buf 8,
        buf.getD 12 0, buf.getD 13 0, buf.drop 16)) := by
  constructor
  · intro buf w h c e pay hok
    unfold NoLib.imgb_parse at hok
    split at hok
    · exact absurd hok (by simp)
    · rename_i hmagic
      split at hok
      · exact absurd hok (by simp)
      · rename_i hmagic2
        dsimp only at hok
        cases hbps : NoLib._bytes_per_sample (buf.getD 13 0) with
        | error s => rw [hbps] at hok; exact absurd hok (by simp [Except.bind])
        | ok bps =>
          rw [hbps] at hok
          simp only [Except.bind] at hok
          split at hok
          · exact absurd hok (by simp)
          · rename_i hsize
            have htup := Except.ok.inj hok
            have hconj : NoLib._u32_le buf 4 = w ∧ NoLib._u32_le buf 8 = h ∧
                buf.getD 12 0 = c ∧ buf.getD 13 0 = e ∧ List.drop 16 buf = pay := by
              simpa using htup
            obtain ⟨rfl, rfl, rfl, rfl, rfl⟩ := hconj
            push_neg at hmagic2 hsize
            exact ⟨hmagic2, rfl, bps, hbps, hsize⟩
  · intro buf hlen
    unfold BitM.imgb_parse
    rw [if_neg (by omega)]

theorem C1_parse_validation_witness :
    ([73, 77, 71, 66, 1, 0, 0, 0, 1, 0, 0, 0, 1, 1, 0, 0, 42] : List Nat).take 4 =
      NoLib.magic ∧
    ([42] : List Nat) =
      ([73, 77, 71, 66, 1, 0, 0, 0, 1, 0, 0, 0, 1, 1, 0, 0, 42] : List Nat).drop 16 ∧
    ∃ bps, NoLib._bytes_per_sample 1 = Except.ok bps ∧
      ([42] : List Nat).length = 1 * 1 * 1 * bps :=
  C1_parse_validation.1 [73, 77, 71, 66, 1, 0, 0, 0, 1, 0, 0, 0, 1, 1, 0, 0, 42]
    1 1 1 1 [42] rfl

/-- Claim C4: for every in-range geometry, supported encoding and payload
of exactly the expected length, parsing the buffer produced by make
returns the original width, height, channels, encoding and payload. -/
theorem C4_make_parse_roundtrip (w h c e : Nat) (payload : List Nat) (bps : Nat)
    (hw : w < 4294967296) (hh : h < 4294967296) (hc : c ≤ 255)
    (he : e = 1 ∨ e = 2 ∨ e = 3 ∨ e = 4)
    (hbps : NoLib._bytes_per_sample e = Except.ok bps)
    (hlen : payload.length = w * h * c * bps) :
    Except.bind (NoLib.imgb_make w h c e payload) NoLib.imgb_parse =
      Except.ok (w, h, c, e, payload) := by
  rw [imgb_make_eq w h c e payload bps hbps hlen hw hh]
  exact imgb_parse_header w h c e payload bps hbps hlen hw hh hc (by omega)

theorem C4_make_parse_roundtrip_witness :
    Except.bind (NoLib.imgb_make 2 1 3 4 [9, 8, 7, 6, 5, 4, 3, 2, 1, 0, 11, 12, 13, 14,
      15, 16, 17, 18]) NoLib.imgb_parse =
      Except.ok (2, 1, 3, 4, [9, 8, 7, 6, 5, 4, 3, 2, 1, 0, 11, 12, 13, 14, 15, 16, 17, 18]) :=
  C4_make_parse_roundtrip 2 1 3 4 _ 3 (by decide) (by decide) (by decide)
    (by decide) rfl (by decide)

theorem C9_box_sum_witness :
    ((_box_sum_2d_int [[1, 2], [3, 4]] 3).getD 0 []).getD 1 0 =
      ([[1, 2], [3, 4]].map List.sum).sum :=
  C9_box_sum_spec.2 [[1, 2], [3, 4]] 3 2 0 1 (by decide) (by decide) (by decide)
    (by decide) (by decide) (by decide)

/-- Indexing the concatenation of one row slice per frame reads straight
from the chosen frame. -/
theorem epi_slice_getD (h_stack : List (List Nat)) (R H U y u idx : Nat)
    (hlen : ∀ f ∈ h_stack, f.length = H * R) (hU : U = h_stack.length)
    (hy : y < H) (hu : u < U) (hidx : idx < R) :
    ((List.range U).flatMap (fun v => ((h_stack.getD v []).drop (y * R)).take R)).getD
      (u * R + idx) 0 = (h_stack.getD u []).getD (y * R + idx) 0 := by
  have hg : ∀ m, m < U → (((h_stack.getD m []).drop (y * R)).take R).length = R := by
    intro m hm
    have hml : m < h_stack.length := hU ▸ hm
    have hmem : h_stack.getD m [] ∈ h_stack := by
      rw [List.getD_eq_getElem h_stack [] hml]
      exact List.getElem_mem hml
    have hflen := hlen _ hmem
    rw [List.length_take, List.length_drop, hflen]
    have hstep : y * R + R ≤ H * R := by
      calc y * R + R = (y + 1) * R := by ring
        _ ≤ H * R := Nat.mul_le_mul_right R hy
    omega
  rw [range_flatMap_getD _ R U 0 u idx hu hidx hg]
  rw [List.getD_eq_getElem?_getD, List.getElem?_take, if_pos hidx, List.getElem?_drop,
    ← List.getD_eq_getElem?_getD]

/-- Claim C6: the horizontal EPI for image row y is U angular rows of W
pixels (9 bytes each) and reproduces row y of every stack frame byte for
byte, in both pipeline variants (the second with its hardcoded 512-pixel,
9-frame geometry). -/
theorem C6_epi_h_gather :
    (∀ (h_stack : List (List Nat)) (W H U y u x j : Nat),
      (∀ f ∈ h_stack, f.length = H * (W * 9)) → U = h_stack.length → y < H →
      u < U → x < W → j < 9 →
      (NoLib.build_epi_h_row h_stack W U y).length = U * (W * 9) ∧
      (NoLib.build_epi_h_row h_stack W U y).getD ((u * W + x) * 9 + j) 0 =
        (h_stack.getD u []).getD ((y * W + x) * 9 + j) 0) ∧
    (∀ (h_stack : List (List Nat)) (y u x j : Nat),
      (∀ f ∈ h_stack, f.length = 512 * 4608) → h_stack.length = 9 → y < 512 →
      u < 9 → x < 512 → j < 9 →
      (BitM.build_epi_h_row h_stack y).getD ((u * 512 + x) * 9 + j) 0 =
        (h_stack.getD u []).getD ((y * 512 + x) * 9 + j) 0) := by
  constructor
  · intro h_stack W H U y u x j hlen hU hy hu hx hj
    constructor
    · unfold NoLib.build_epi_h_row
      rw [flatMap_length_const _ (W * 9)]
      · rw [List.length_range]
      · intro b hb
        have hbU : b < U := by simpa using hb
        have hml : b < h_stack.length := hU ▸ hbU
        have hmem : h_stack.getD b [] ∈ h_stack := by
          rw [List.getD_eq_getElem h_stack [] hml]
          exact List.getElem_mem hml
        have hflen := hlen _ hmem
        rw [List.length_take, List.length_drop, hflen]
        have hstep : y * (W * 9) + W * 9 ≤ H * (W * 9) := by
          calc y * (W * 9) + W * 9 = (y + 1) * (W * 9) := by ring
            _ ≤ H * (W * 9) := Nat.mul_le_mul_right (W * 9) hy
        omega
    · have h := epi_slice_getD h_stack (W * 9) H U y u (x * 9 + j) hlen hU hy hu (by omega)
      unfold NoLib.build_epi_h_row
      have e1 : (u * W + x) * 9 + j = u * (W * 9) + (x * 9 + j) := by ring
      have e2 : (y * W + x) * 9 + j = y * (W * 9) + (x * 9 + j) := by ring
      rw [e1, e2]
      exact h
  · intro h_stack y u x j hlen hU hy hu hx hj
    have h := epi_slice_getD h_stack 4608 512 9 y u (x * 9 + j)
      (by intro f hf; rw [hlen f hf]) hU.symm hy hu (by omega)
    unfold BitM.build_epi_h_row
    have e1 : (u * 512 + x) * 9 + j = u * 4608 + (x * 9 + j) := by ring
    have e2 : (y * 512 + x) * 9 + j = y * 4608 + (x * 9 + j) := by ring
    rw [e1, e2]
    exact h

theorem C6_epi_h_gather_witness :
    (NoLib.build_epi_h_row [[1, 2, 3, 4, 5, 6, 7, 8, 9]] 1 1 0).length = 1 * (1 * 9) ∧
    (NoLib.build_epi_h_row [[1, 2, 3, 4, 5, 6, 7, 8, 9]] 1 1 0).getD
      ((0 * 1 + 0) * 9 + 4) 0 =
      (([[1, 2, 3, 4, 5, 6, 7, 8, 9]] : List (List Nat)).getD 0 []).getD
        ((0 * 1 + 0) * 9 + 4) 0 :=
  C6_epi_h_gather.1 [[1, 2, 3, 4, 5, 6, 7, 8, 9]] 1 1 1 0 0 0 4 (by decide) (by decide)
    (by decide) (by decide) (by decide) (by decide)

/-- Length of a concatenation of three-element blocks over a range. -/
theorem flatMap_three_length {α : Type} (p q r : Nat → α) (n : Nat) :
    ((List.range n).flatMap (fun x => [p x, q x, r x])).length = n * 3 := by
  rw [flatMap_length_const _ 3]
  · rw [List.length_range]
  · intro b _
    rfl

/-- Indexing the convolution output at pixel (y, x), channel c, yields the
per-pixel value. -/
theorem convolve_getD (raw : List Nat) (W H : Nat) (K : List (List Nat))
    (kernel_sum y x c : Nat) (hy : y < H) (hx : x < W) (hc : c < 3) :
    (NoLib._convolve_u8_rgb raw W H K kernel_sum).getD ((y * W + x) * 3 + c) 0 =
      NoLib.conv_pixel raw W H K kernel_sum y x c := by
  unfold NoLib._convolve_u8_rgb
  have harith : (y * W + x) * 3 + c = y * (W * 3) + (x * 3 + c) := by ring
  rw [harith, range_flatMap_getD _ (W * 3) H 0 y (x * 3 + c) hy (by omega) ?hblock]
  case hblock =>
    intro m hm
    exact flatMap_three_length _ _ _ W
  rw [range_flatMap_getD _ 3 W 0 x c hx hc ?hinner]
  case hinner =>
    intro m hm
    rfl
  interval_cases c <;> rfl

/-- Claim C2 counterexample: at the top-left pixel of a 512 x 512 image
whose first byte is 15 (all others 0), the Bit_Manipulation 3 x 3 blur
produces 3, while dividing its weighted sum (60) by the kernel sum (16)
with round-to-nearest and clamping gives 4: the variant truncates. -/
theorem C2_lowpass_rounding_counterexample :
    BitM.conv_pixel (15 :: List.replicate 786431 0) 512 512
      [[0, 1, 0], [1, 2, 1], [0, 1, 0]] 4 0 0 0 = 3 ∧
    BitM.conv_acc (15 :: List.replicate 786431 0) 512 512
      [[0, 1, 0], [1, 2, 1], [0, 1, 0]] 0 0 0 = 60 ∧
    BitM.conv_pixel (15 :: List.replicate 786431 0) 512 512
      [[0, 1, 0], [1, 2, 1], [0, 1, 0]] 4 0 0 0 ≠
      min ((BitM.conv_acc (15 :: List.replicate 786431 0) 512 512
        [[0, 1, 0], [1, 2, 1], [0, 1, 0]] 0 0 0 + 16 / 2) / 16) 255 := by
  refine ⟨?_, ?_, ?_⟩ <;> decide

/-- Claim C2 (amended): in the No_Libraries low-pass stage every output
byte is the weighted tap sum divided by the kernel sum with
round-to-nearest (the quotient is within half the kernel sum of the exact
ratio), clamped to [0, 255]; the Bit_Manipulation variant instead
truncates the weighted sum by the normalization shift before clamping. -/
theorem C2_lowpass_rounding :
    (∀ (raw : List Nat) (W H : Nat) (kk : List (List Nat) × Nat) (y x c : Nat),
      kk ∈ NoLib._KERNELS → y < H → x < W → c < 3 →
      (NoLib._convolve_u8_rgb raw W H kk.1 kk.2).getD ((y * W + x) * 3 + c) 0 =
        min ((NoLib.conv_acc raw W H kk.1 y x c + kk.2 / 2) / kk.2) 255 ∧
      ((NoLib.conv_acc raw W H kk.1 y x c + kk.2 / 2) / kk.2) * kk.2 ≤
        NoLib.conv_acc raw W H kk.1 y x c + kk.2 / 2 ∧
      NoLib.conv_acc raw W H kk.1 y x c ≤
        ((NoLib.conv_acc raw W H kk.1 y x c + kk.2 / 2) / kk.2) * kk.2 + kk.2 / 2) ∧
    (∀ (raw : List Nat) (W H : Nat) (kk : List (List Nat) × Nat) (y x c : Nat),
      kk ∈ BitM._KERNELS →
      BitM.conv_pixel raw W H kk.1 kk.2 y x c =
        min (BitM.conv_acc raw W H kk.1 y x c / 2 ^ kk.2) 255) := by
  constructor
  · intro raw W H kk y x c hk hy hx hc
    refine ⟨convolve_getD raw W H kk.1 kk.2 y x c hy hx hc, ?_, ?_⟩ <;>
      (fin_cases hk <;> dsimp only <;> omega)
  · intro raw W H kk y x c _
    simp only [BitM.conv_pixel, Nat.shiftRight_eq_div_pow]

theorem C2_lowpass_rounding_witness :
    (NoLib._convolve_u8_rgb [10, 20, 30, 40, 50, 60, 70, 80, 90, 100, 110, 120] 2 2
      [[1, 2, 1], [2, 4, 2], [1, 2, 1]] 16).getD ((0 * 2 + 1) * 3 + 2) 0 =
      min ((NoLib.conv_acc [10, 20, 30, 40, 50, 60, 70, 80, 90, 100, 110, 120] 2 2
        [[1, 2, 1], [2, 4, 2], [1, 2, 1]] 0 1 2 + 16 / 2) / 16) 255 ∧
    ((NoLib.conv_acc [10, 20, 30, 40, 50, 60, 70, 80, 90, 100, 110, 120] 2 2
        [[1, 2, 1], [2, 4, 2], [1, 2, 1]] 0 1 2 + 16 / 2) / 16) * 16 ≤
      NoLib.conv_acc [10, 20, 30, 40, 50, 60, 70, 80, 90, 100, 110, 120] 2 2
        [[1, 2, 1], [2, 4, 2], [1, 2, 1]] 0 1 2 + 16 / 2 ∧
    NoLib.conv_acc [10, 20, 30, 40, 50, 60, 70, 80, 90, 100, 110, 120] 2 2
        [[1, 2, 1], [2, 4, 2], [1, 2, 1]] 0 1 2 ≤
      ((NoLib.conv_acc [10, 20, 30, 40, 50, 60, 70, 80, 90, 100, 110, 120] 2 2
        [[1, 2, 1], [2, 4, 2], [1, 2, 1]] 0 1 2 + 16 / 2) / 16) * 16 + 16 / 2 :=
  C2_lowpass_rounding.1 [10, 20, 30, 40, 50, 60, 70, 80, 90, 100, 110, 120] 2 2
    ([[1, 2, 1], [2, 4, 2], [1, 2, 1]], 16) 0 1 2 (by decide) (by decide) (by decide)
    (by decide)

/-- Length of a concatenation of fixed-length blocks over a range. -/
theorem range_flatMap_length {α : Type} (g : Nat → List α) (L n : Nat)
    (hg : ∀ m, (g m).length = L) : ((List.range n).flatMap g).length = n * L := by
  rw [flatMap_length_const g L _ (fun b _ => hg b), List.length_range]

/-- Each angular row of the difference payload spans W samples of 3
bytes. -/
theorem conf_diff_row_block_length (pay : List Nat) (A W ch : Nat) :
    ∀ m, m < A →
      ((fun a => if a = 0 ∨ a = A - 1 then
          (List.range W).flatMap (fun _ => _u24_chunk 8388608)
        else (List.range W).flatMap (fun x =>
          _u24_chunk (_bias_from_q12_12 (NoLib.conf_diff pay W ch a x)))) m).length =
        W * 3 := by
  intro m _
  dsimp only
  split
  · apply range_flatMap_length
    intro m
    rfl
  · apply range_flatMap_length
    intro m
    rfl

/-- Border rows of the difference payload hold the bias chunk at every
column. -/
theorem conf_diff_row_border_getD (pay : List Nat) (A W ch a x j : Nat)
    (ha : a < A) (hborder : a = 0 ∨ a = A - 1) (hx : x < W) (hj : j < 3) :
    (NoLib.conf_diff_row pay A W ch).getD (a * (W * 3) + (x * 3 + j)) 0 =
      (_u24_chunk 8388608).getD j 0 := by
  unfold NoLib.conf_diff_row
  rw [range_flatMap_getD _ (W * 3) A 0 a (x * 3 + j) ha (by omega)
    (conf_diff_row_block_length pay A W ch)]
  rw [if_pos hborder, range_flatMap_getD _ 3 W 0 x j hx hj ?hchunk]
  case hchunk =>
    intro m hm
    rfl

/-- Claim C7: for any EPI with angular count at least 3, the stored u24
sample of the angular-difference volume at angular index 0 and at the
last angular index is exactly the bias 8388608 (signed zero), at every
column, in both pipeline variants. -/
theorem C7_confidence_border_zero :
    (∀ (pay : List Nat) (A W ch a x : Nat), 3 ≤ A → (a = 0 ∨ a = A - 1) → x < W →
      _u24_read (NoLib.conf_diff_row pay A W ch) ((a * W + x) * 3) = 8388608) ∧
    (∀ (pay : List Nat) (ch a x : Nat), (a = 0 ∨ a = 8) → x < 512 →
      _u24_read (BitM.conf_diff_row pay ch) ((a * 512 + x) * 3) = 8388608) := by
  constructor
  · intro pay A W ch a x hA hb hx
    have ha : a < A := by omega
    have g0 : (NoLib.conf_diff_row pay A W ch).getD ((a * W + x) * 3) 0 =
        (_u24_chunk 8388608).getD 0 0 := by
      rw [show (a * W + x) * 3 = a * (W * 3) + (x * 3 + 0) by ring]
      exact conf_diff_row_border_getD pay A W ch a x 0 ha hb hx (by omega)
    have g1 : (NoLib.conf_diff_row pay A W ch).getD ((a * W + x) * 3 + 1) 0 =
        (_u24_chunk 8388608).getD 1 0 := by
      rw [show (a * W + x) * 3 + 1 = a * (W * 3) + (x * 3 + 1) by ring]
      exact conf_diff_row_border_getD pay A W ch a x 1 ha hb hx (by omega)
    have g2 : (NoLib.conf_diff_row pay A W ch).getD ((a * W + x) * 3 + 2) 0 =
        (_u24_chunk 8388608).getD 2 0 := by
      rw [show (a * W + x) * 3 + 2 = a * (W * 3) + (x * 3 + 2) by ring]
      exact conf_diff_row_border_getD pay A W ch a x 2 ha hb hx (by omega)
    unfold _u24_read
    rw [g0, g1, g2]
    decide
  · intro pay ch a x hb hx
    have hrow : ∀ m, m < 9 →
        ((fun a => if a = 0 ∨ a = 8 then
            (List.range 512).flatMap (fun _ => _u24_chunk 8388608)
          else (List.range 512).flatMap (fun x =>
            _u24_chunk (_bias_from_q12_12 (NoLib.conf_diff pay 512 ch a x)))) m).length =
          512 * 3 := by
      intro m _
      dsimp only
      split
      · apply range_flatMap_length
        intro m2
        rfl
      · apply range_flatMap_length
        intro m2
        rfl
    have ha : a < 9 := by omega
    have key : ∀ j, j < 3 → (BitM.conf_diff_row pay ch).getD (a * (512 * 3) + (x * 3 + j)) 0 =
        (_u24_chunk 8388608).getD j 0 := by
      intro j hj
      unfold BitM.conf_diff_row
      rw [range_flatMap_getD _ (512 * 3) 9 0 a (x * 3 + j) ha (by omega) hrow]
      rw [if_pos hb, range_flatMap_getD _ 3 512 0 x j hx hj ?hchunk2]
      case hchunk2 =>
        intro m hm
        rfl
    have g0 : (BitM.conf_diff_row pay ch).getD ((a * 512 + x) * 3) 0 =
        (_u24_chunk 8388608).getD 0 0 := by
      rw [show (a * 512 + x) * 3 = a * (512 * 3) + (x * 3 + 0) by ring]
      exact key 0 (by omega)
    have g1 : (BitM.conf_diff_row pay ch).getD ((a * 512 + x) * 3 + 1) 0 =
        (_u24_chunk 8388608).getD 1 0 := by
      rw [show (a * 512 + x) * 3 + 1 = a * (512 * 3) + (x * 3 + 1) by ring]
      exact key 1 (by omega)
    have g2 : (BitM.conf_diff_row pay ch).getD ((a * 512 + x) * 3 + 2) 0 =
        (_u24_chunk 8388608).getD 2 0 := by
      rw [show (a * 512 + x) * 3 + 2 = a * (512 * 3) + (x * 3 + 2) by ring]
      exact key 2 (by omega)
    unfold _u24_read
    rw [g0, g1, g2]
    decide

theorem C7_confidence_border_zero_witness :
    _u24_read (NoLib.conf_diff_row (List.replicate 27 7) 3 1 0) ((2 * 1 + 0) * 3) =
      8388608 :=
  C7_confidence_border_zero.1 (List.replicate 27 7) 3 1 0 2 0 (by decide)
    (by decide) (by decide)

/-- Claim C3: fusing two disparities that both decode to zero (stored
8388608) with confidences decoding to one (stored 8392704) under the
default parameters yields a fused value of 2048 (half in Q12.12), outside
the convex range [0, 0] of the inputs: the rounding term den shifted left
by 11 adds half a unit instead of half an LSB, contradicting the
round-to-nearest intent stated beside it. -/
theorem C3_fuse_bounds_violation :
    BitM.fuse_pixel 8388608 8388608 8392704 8392704 4 1 4096 1 = 2048 ∧
    ((8388608 : Int) - 8388608 = 0 ∧ (8392704 : Int) - 8388608 = 4096) ∧
    ¬ (BitM.fuse_pixel 8388608 8388608 8392704 8392704 4 1 4096 1 ≤
        max ((8388608 : Int) - 8388608) ((8388608 : Int) - 8388608)) := by
  refine ⟨by decide, ⟨by decide, by decide⟩, ?_⟩
  intro hle
  have : BitM.fuse_pixel 8388608 8388608 8392704 8392704 4 1 4096 1 = 2048 := by decide
  rw [this] at hle
  omega

/-- Reduction of bind over a successful Except. -/
theorem except_bind_ok {α β : Type} (a : α) (f : α → Except String β) :
    Except.bind (Except.ok a) f = f a := rfl

/-- Dropping the 16 header bytes of a made blob leaves the payload. -/
theorem header_drop_16 (w h c e : Nat) (payload : List Nat) :
    (NoLib.magic ++ [w % 256, w / 256 % 256, w / 65536 % 256, w / 16777216 % 256] ++
      [h % 256, h / 256 % 256, h / 65536 % 256, h / 16777216 % 256] ++
      [c &&& 255, e &&& 255, 0, 0] ++ payload).drop 16 = payload := by
  simp [NoLib.magic]

/-- Length of the degenerate all-bias difference payload. -/
theorem zero_diff_payload_length (A W : Nat) :
    (NoLib.zero_diff_payload A W).length = A * W * 3 := by
  unfold NoLib.zero_diff_payload
  apply range_flatMap_length
  intro m
  rfl

/-- Reading any sample of a payload made of one repeated chunk gives the
chunk itself. -/
theorem const_chunk_read (v : Int) (n i : Nat) (hi : i < n) :
    _u24_read ((List.range n).flatMap (fun _ => _u24_chunk v)) (i * 3) =
      _u24_read (_u24_chunk v) 0 := by
  unfold _u24_read
  have h0 := range_flatMap_getD (fun _ => _u24_chunk v) 3 n 0 i 0 hi (by omega)
    (fun m _ => rfl)
  have h1 := range_flatMap_getD (fun _ => _u24_chunk v) 3 n 0 i 1 hi (by omega)
    (fun m _ => rfl)
  have h2 := range_flatMap_getD (fun _ => _u24_chunk v) 3 n 0 i 2 hi (by omega)
    (fun m _ => rfl)
  simp only [Nat.add_zero] at h0
  rw [h0, h1, h2]

/-- Claim C8: with angular count 1 or 2 the confidence estimator returns
successfully (no division happens on the degenerate path), and every
sample of both confidence maps and of every angular-difference volume is
the stored bias 8388608, decoding to exactly zero. -/
theorem C8_confidence_degenerate (epi_h epi_v : List (List Nat)) (A : Nat)
    (p0 q0 : List Nat)
    (hH : 0 < epi_h.length) (hW : 0 < epi_v.length)
    (hHlt : epi_h.length < 4294967296) (hWlt : epi_v.length < 4294967296)
    (hph : NoLib.imgb_parse (epi_h.getD 0 []) = Except.ok (epi_v.length, A, 3, 4, p0))
    (hpv : NoLib.imgb_parse (epi_v.getD 0 []) = Except.ok (epi_h.length, A, 3, 4, q0))
    (hA : A = 1 ∨ A = 2) :
    ∃ C_h C_v dh dv,
      NoLib.compute_from_epis_with_diffs epi_h epi_v none =
        Except.ok (C_h, C_v, dh, dv) ∧
      dh.length = epi_h.length ∧ dv.length = epi_v.length ∧
      (∀ i, i < epi_h.length * epi_v.length →
        _u24_read (C_h.drop 16) (i * 3) = 8388608 ∧
        _u24_read (C_v.drop 16) (i * 3) = 8388608) ∧
      (∀ b ∈ dh, ∀ i, i < A * epi_v.length → _u24_read (b.drop 16) (i * 3) = 8388608) ∧
      (∀ b ∈ dv, ∀ i, i < A * epi_h.length → _u24_read (b.drop 16) (i * 3) = 8388608) := by
  have hA3 : A < 3 := by omega
  have hAlt : A < 4294967296 := by omega
  have hmk_dh : NoLib.imgb_make epi_v.length A 1 4
      (NoLib.zero_diff_payload A epi_v.length) = Except.ok
      (NoLib.magic ++
        [epi_v.length % 256, epi_v.length / 256 % 256, epi_v.length / 65536 % 256,
          epi_v.length / 16777216 % 256] ++
        [A % 256, A / 256 % 256, A / 65536 % 256, A / 16777216 % 256] ++
        [1 &&& 255, 4 &&& 255, 0, 0] ++ NoLib.zero_diff_payload A epi_v.length) :=
    imgb_make_eq _ _ _ _ _ 3 rfl (by rw [zero_diff_payload_length]; ring) hWlt hAlt
  have hmk_dv : NoLib.imgb_make epi_h.length A 1 4
      (NoLib.zero_diff_payload A epi_h.length) = Except.ok
      (NoLib.magic ++
        [epi_h.length % 256, epi_h.length / 256 % 256, epi_h.length / 65536 % 256,
          epi_h.length / 16777216 % 256] ++
        [A % 256, A / 256 % 256, A / 65536 % 256, A / 16777216 % 256] ++
        [1 &&& 255, 4 &&& 255, 0, 0] ++ NoLib.zero_diff_payload A epi_h.length) :=
    imgb_make_eq _ _ _ _ _ 3 rfl (by rw [zero_diff_payload_length]; ring) hHlt hAlt
  have hpayC_len : ((List.range (epi_h.length * epi_v.length)).flatMap (fun _ =>
      _u24_chunk (_bias_from_q12_12 0))).length =
      epi_v.length * epi_h.length * 1 * 3 := by
    rw [range_flatMap_length (fun _ => _u24_chunk (_bias_from_q12_12 0)) 3 _
      (fun m => rfl)]
    ring
  have hmk_C : NoLib.imgb_make epi_v.length epi_h.length 1 4
      ((List.range (epi_h.length * epi_v.length)).flatMap (fun _ =>
        _u24_chunk (_bias_from_q12_12 0))) = Except.ok
      (NoLib.magic ++
        [epi_v.length % 256, epi_v.length / 256 % 256, epi_v.length / 65536 % 256,
          epi_v.length / 16777216 % 256] ++
        [epi_h.length % 256, epi_h.length / 256 % 256, epi_h.length / 65536 % 256,
          epi_h.length / 16777216 % 256] ++
        [1 &&& 255, 4 &&& 255, 0, 0] ++
        (List.range (epi_h.length * epi_v.length)).flatMap (fun _ =>
          _u24_chunk (_bias_from_q12_12 0))) :=
    imgb_make_eq _ _ _ _ _ 3 rfl hpayC_len hWlt hHlt
  have hmapM_h : ((List.range epi_h.length).map (fun _ =>
      NoLib.zero_diff_payload A epi_v.length)).mapM (fun p =>
        NoLib.imgb_make epi_v.length A 1 4 p) = Except.ok
      (((List.range epi_h.length).map (fun _ =>
        NoLib.zero_diff_payload A epi_v.length)).map (fun p =>
          NoLib.magic ++
            [epi_v.length % 256, epi_v.length / 256 % 256, epi_v.length / 65536 % 256,
              epi_v.length / 16777216 % 256] ++
            [A % 256, A / 256 % 256, A / 65536 % 256, A / 16777216 % 256] ++
            [1 &&& 255, 4 &&& 255, 0, 0] ++ p)) := by
    apply mapM_ok
    intro p hp
    have hpz : p = NoLib.zero_diff_payload A epi_v.length := by
      simp only [List.mem_map, List.mem_range] at hp
      obtain ⟨m, _, hmp⟩ := hp
      exact hmp.symm
    rw [hpz]
    exact hmk_dh
  have hmapM_v : ((List.range epi_v.length).map (fun _ =>
      NoLib.zero_diff_payload A epi_h.length)).mapM (fun p =>
        NoLib.imgb_make epi_h.length A 1 4 p) = Except.ok
      (((List.range epi_v.length).map (fun _ =>
        NoLib.zero_diff_payload A epi_h.length)).map (fun p =>
          NoLib.magic ++
            [epi_h.length % 256, epi_h.length / 256 % 256, epi_h.length / 65536 % 256,
              epi_h.length / 16777216 % 256] ++
            [A % 256, A / 256 % 256, A / 65536 % 256, A / 16777216 % 256] ++
            [1 &&& 255, 4 &&& 255, 0, 0] ++ p)) := by
    apply mapM_ok
    intro p hp
    have hpz : p = NoLib.zero_diff_payload A epi_h.length := by
      simp only [List.mem_map, List.mem_range] at hp
      obtain ⟨m, _, hmp⟩ := hp
      exact hmp.symm
    rw [hpz]
    exact hmk_dv
  have c1 : ¬ (epi_h.length = 0 ∨ epi_v.length = 0) := by omega
  have hcomp : NoLib.compute_from_epis_with_diffs epi_h epi_v none = Except.ok
      (NoLib.magic ++
        [epi_v.length % 256, epi_v.length / 256 % 256, epi_v.length / 65536 % 256,
          epi_v.length / 16777216 % 256] ++
        [epi_h.length % 256, epi_h.length / 256 % 256, epi_h.length / 65536 % 256,
          epi_h.length / 16777216 % 256] ++
        [1 &&& 255, 4 &&& 255, 0, 0] ++
        (List.range (epi_h.length * epi_v.length)).flatMap (fun _ =>
          _u24_chunk (_bias_from_q12_12 0)),
       NoLib.magic ++
        [epi_v.length % 256, epi_v.length / 256 % 256, epi_v.length / 65536 % 256,
          epi_v.length / 16777216 % 256] ++
        [epi_h.length % 256, epi_h.length / 256 % 256, epi_h.length / 65536 % 256,
          epi_h.length / 16777216 % 256] ++
        [1 &&& 255, 4 &&& 255, 0, 0] ++
        (List.range (epi_h.length * epi_v.length)).flatMap (fun _ =>
          _u24_chunk (_bias_from_q12_12 0)),
       ((List.range epi_h.length).map (fun _ =>
          NoLib.zero_diff_payload A epi_v.length)).map (fun p =>
            NoLib.magic ++
              [epi_v.length % 256, epi_v.length / 256 % 256, epi_v.length / 65536 % 256,
                epi_v.length / 16777216 % 256] ++
              [A % 256, A / 256 % 256, A / 65536 % 256, A / 16777216 % 256] ++
              [1 &&& 255, 4 &&& 255, 0, 0] ++ p),
       ((List.range epi_v.length).map (fun _ =>
          NoLib.zero_diff_payload A epi_h.length)).map (fun p =>
            NoLib.magic ++
              [epi_h.length % 256, epi_h.length / 256 % 256, epi_h.length / 65536 % 256,
                epi_h.length / 16777216 % 256] ++
              [A % 256, A / 256 % 256, A / 65536 % 256, A / 16777216 % 256] ++
              [1 &&& 255, 4 &&& 255, 0, 0] ++ p)) := by
    unfold NoLib.compute_from_epis_with_diffs
    dsimp only
    rw [if_neg c1, hph, except_bind_ok]
    dsimp only
    rw [hpv, except_bind_ok]
    dsimp only
    have c2 : ¬ ((4 : Nat) ≠ 4 ∨ (4 : Nat) ≠ 4) := by norm_num
    have c3 : ¬ ((3 : Nat) ≠ 3 ∨ (3 : Nat) ≠ 3) := by norm_num
    have c4 : ¬ (epi_v.length ≠ epi_v.length) := by norm_num
    have c5 : ¬ (epi_h.length ≠ epi_h.length) := by norm_num
    have c6 : ¬ (A ≠ A) := by norm_num
    simp only [if_neg c2, if_neg c3, if_neg c4, if_neg c5, if_neg c6, if_pos hA3]
    rw [hmapM_h, except_bind_ok, hmk_C, except_bind_ok, hmapM_v, except_bind_ok,
      except_bind_ok]
  refine ⟨_, _, _, _, hcomp, ?_, ?_, ?_, ?_, ?_⟩
  · simp
  · simp
  · intro i hi
    constructor
    · rw [header_drop_16, const_chunk_read _ _ i hi]
      decide
    · rw [header_drop_16, const_chunk_read _ _ i hi]
      decide
  · intro b hb i hi
    simp only [List.mem_map, List.mem_range] at hb
    obtain ⟨p, ⟨m, _, hmp⟩, hpb⟩ := hb
    rw [← hpb, ← hmp, header_drop_16]
    unfold NoLib.zero_diff_payload
    rw [const_chunk_read _ _ i (by omega)]
    decide
  · intro b hb i hi
    simp only [List.mem_map, List.mem_range] at hb
    obtain ⟨p, ⟨m, _, hmp⟩, hpb⟩ := hb
    rw [← hpb, ← hmp, header_drop_16]
    unfold NoLib.zero_diff_payload
    rw [const_chunk_read _ _ i (by omega)]
    decide

theorem C8_confidence_degenerate_witness :
    ∃ C_h C_v dh dv,
      NoLib.compute_from_epis_with_diffs
        [[73, 77, 71, 66, 1, 0, 0, 0, 1, 0, 0, 0, 3, 4, 0, 0, 0, 0, 0, 0, 0, 0, 0, 0, 0]]
        [[73, 77, 71, 66, 1, 0, 0, 0, 1, 0, 0, 0, 3, 4, 0, 0, 0, 0, 0, 0, 0, 0, 0, 0, 0]]
        none = Except.ok (C_h, C_v, dh, dv) ∧
      dh.length = 1 ∧ dv.length = 1 ∧
      (∀ i, i < 1 * 1 → _u24_read (C_h.drop 16) (i * 3) = 8388608 ∧
        _u24_read (C_v.drop 16) (i * 3) = 8388608) ∧
      (∀ b ∈ dh, ∀ i, i < 1 * 1 → _u24_read (b.drop 16) (i * 3) = 8388608) ∧
      (∀ b ∈ dv, ∀ i, i < 1 * 1 → _u24_read (b.drop 16) (i * 3) = 8388608) :=
  C8_confidence_degenerate
    [[73, 77, 71, 66, 1, 0, 0, 0, 1, 0, 0, 0, 3, 4, 0, 0, 0, 0, 0, 0, 0, 0, 0, 0, 0]]
    [[73, 77, 71, 66, 1, 0, 0, 0, 1, 0, 0, 0, 3, 4, 0, 0, 0, 0, 0, 0, 0, 0, 0, 0, 0]]
    1 [0, 0, 0, 0, 0, 0, 0, 0, 0] [0, 0, 0, 0, 0, 0, 0, 0, 0]
    (by decide) (by decide) (by decide) (by decide) rfl rfl (Or.inl rfl)

end Thesis
